import Mathlib

/-!
Shallow embedding of `toison` (src/main.rs): a JSON size-treemap renderer.
The builder `Node.from_json`, the probe `Node.max_depth`, the renderer
`Node.render` and the depth-resolution logic of `main` are translated
below directly from the Rust source.  Machine (`usize`/`isize`) arithmetic
that can wrap is modelled explicitly modulo 2^64; `f32` quantities that
only affect the visual text of a line (percentage text, bar glyph count,
colors) are outside the model, but the control flow they drive (the
threshold comparison, whose IEEE semantics on a zero `total_size` decide
whether a line is printed at all) is captured exactly.
-/

namespace Toison

/-- Interpretation of a (possibly negative or overflowed) integer as a Rust
`usize`, i.e. reduced modulo 2^64.  Models `as usize` casts and wrapping
arithmetic of release builds. -/
def wrap64 (x : Int) : Nat := (x % (2 ^ 64 : Int)).toNat

/-- Rust `usize` subtraction `a - b` in release mode: wraps modulo 2^64. -/
def usub (a b : Nat) : Nat := wrap64 ((a : Int) - (b : Int))

/-- Generic parsed JSON value (`serde_json::Value`).  A number is carried as
the canonical decimal text that `x.to_string()` would produce, since only the
length of that text is ever consumed; object entries keep insertion order. -/
inductive Value where
  | null : Value
  | bool (b : Bool) : Value
  | num (r : String) : Value
  | str (s : String) : Value
  | arr (elems : List Value) : Value
  | obj (entries : List (String × Value)) : Value
deriving Repr

/-- The size-annotated tree node (`struct Node` in the source). -/
structure Node where
  tag : Option String
  len : Nat
  size_b : Nat
  size_c : Nat
  key_size : Nat
  children : Option (List Node)
deriving Repr

/-- `Node::leaf(key_size, size, tag)`. -/
def Node.leaf (key_size size : Nat) (tag : String) : Node :=
  { tag := if tag.isEmpty then none else some tag
    len := 0
    size_b := size
    size_c := 0
    key_size := key_size
    children := none }

/-- `Node::from_json(n, ks, tag)`.  Rust `str::len()` is the UTF-8 byte
length, rendered here as `String.utf8ByteSize`. -/
def Node.from_json : Value → Nat → String → Node
  | .null, ks, tag => Node.leaf ks 0 tag
  | .bool _, ks, tag => Node.leaf ks 4 tag
  | .num x, ks, tag => Node.leaf ks x.utf8ByteSize tag
  | .str s, ks, tag => Node.leaf ks s.utf8ByteSize tag
  | .arr cs, _, tag =>
      let children := cs.attach.map (fun c => Node.from_json c.1 0 "")
      { tag := some tag
        len := children.length
        size_b := (children.map (fun c => c.size_b)).sum
        size_c := children.length + (children.map (fun c => c.size_c)).sum
        key_size := (children.map (fun c => c.key_size)).sum
        children := none }
  | .obj es, _, tag =>
      let children :=
        es.attach.map (fun kv => Node.from_json kv.1.2 kv.1.1.utf8ByteSize kv.1.1)
      { tag := some tag
        len := 0
        size_b := (children.map (fun c => c.size_b)).sum
        size_c := children.length + (children.map (fun c => c.size_c)).sum
        key_size := (es.map (fun kv => kv.1.utf8ByteSize)).sum
        children := some children }
termination_by v => sizeOf v
decreasing_by
  · have h1 : sizeOf c.1 < sizeOf cs := List.sizeOf_lt_of_mem c.2
    simp
    omega
  · have h1 : sizeOf kv.1 < sizeOf es := List.sizeOf_lt_of_mem kv.2
    have h2 : sizeOf kv.1.2 < sizeOf kv.1 := by
      obtain ⟨k, v⟩ := kv.1
      simp
    simp
    omega

/-- The list of discarded element nodes an array constructs. -/
def arrChildren (cs : List Value) : List Node :=
  cs.map (fun c => Node.from_json c 0 "")

/-- The list of retained entry nodes an object constructs. -/
def objChildren (es : List (String × Value)) : List Node :=
  es.map (fun kv => Node.from_json kv.2 kv.1.utf8ByteSize kv.1)

/-- The unit selection (`enum Unit` in the source). -/
inductive Unit where
  | bytes
  | children
deriving Repr, DecidableEq

/-- The color policy selection (`enum Colorizer`); the policies themselves only
affect terminal colors and are not modelled. -/
inductive Colorizer where
  | hellscape
  | gradient
  | monochrome
  | none
deriving Repr, DecidableEq

/-- `struct DisplaySettings`. -/
structure DisplaySettings where
  counter : Unit
  colorizer : Colorizer
  depth : Option Nat
  width : Nat
deriving Repr

/-- `Node::size(self, count)`. -/
def Node.size (n : Node) (count : Unit) : Nat :=
  match count with
  | .bytes => n.size_b
  | .children => n.size_c

/-- One printed line of `Node::render`, identified by the (truncated) label
text and the displayed size; the percentage text, bar glyphs and color are
`f32` display artifacts outside the model. -/
structure Line where
  id : String
  size : Nat
deriving Repr, DecidableEq

/-- The early-return depth test of `Node::render`: `depth >= max_depth` when a
cap is configured. -/
def depthCut : Option Nat → Nat → Bool
  | some cap, depth => decide (cap ≤ depth)
  | .none, _ => false

/-- The threshold test `rel_size < threshold` with
`rel_size = self.size(..) as f32 / total_size as f32`.  When `total_size` is
zero, IEEE division yields `NaN` (for size 0) or `+inf` (for size > 0), and
both compare false under `<` against any finite threshold, so the test never
triggers; for a positive total the comparison is the exact rational one. -/
def relLtThreshold (size total : Nat) (th : ℚ) : Bool :=
  if total = 0 then false
  else decide ((size : ℚ) / (total : ℚ) < th)

/-- Digit grouping of the `thousands` crate: a comma every three digits from
the right.  The input is the digit list least-significant first. -/
def insertSep : List Char → List Char
  | a :: b :: c :: d :: rest => a :: b :: c :: ',' :: insertSep (d :: rest)
  | l => l

/-- `x.separate_with_commas()` on a `usize`. -/
def separate_with_commas (n : Nat) : String :=
  ⟨(insertSep (Nat.toDigits 10 n).reverse).reverse⟩

/-- The label truncation of `Node::render`: when the composed label's byte
length (`id.len()`) exceeds the label column width, keep the first
`w_tagline - 2` characters (a wrapping `usize` subtraction) and append an
ellipsis. -/
def truncateId (id : String) (w : Nat) : String :=
  if w < id.utf8ByteSize then ⟨id.toList.take (usub w 2)⟩ ++ "…" else id

/-- `Node::render`, as the list of lines it prints (in order).  The bar width
`w_bar` and all purely visual `f32` formatting are omitted; everything that
decides whether and in which order lines are printed is kept. -/
def Node.render (n : Node) (total_size depth : Nat) (threshold : ℚ)
    (settings : DisplaySettings) : List Line :=
  if depthCut settings.depth depth then []
  else
    let w_tagline := wrap64 ((usub settings.width 19) * 2) / 3
    let sz := n.size settings.counter
    if relLtThreshold sz total_size threshold then []
    else
      let indent : String := ⟨List.replicate (2 * depth) ' '⟩
      let cardinality : String :=
        if 0 < n.len then "[" ++ separate_with_commas n.len ++ "] " else ""
      let id := truncateId (indent ++ cardinality ++ n.tag.getD "") w_tagline
      ⟨id, sz⟩ ::
        (match h : n.children with
          | some cs =>
              (cs.attach.map (fun c =>
                Node.render c.1 total_size (depth + 1) threshold settings)).flatten
          | .none => [])
termination_by sizeOf n
decreasing_by
  have h1 : sizeOf c.1 < sizeOf cs := List.sizeOf_lt_of_mem c.2
  obtain ⟨t, l, b, c2, k, ch⟩ := n
  simp at h
  subst h
  simp
  omega

/-- The inner helper `_max_depth(n, ax)` of `Node::max_depth`. -/
def _max_depth (n : Node) (ax : Nat) : Nat :=
  match h : n.children with
  | some cs => 1 + ((cs.attach.map (fun c => _max_depth c.1 ax)).max?.getD 0)
  | .none => ax
termination_by sizeOf n
decreasing_by
  have h1 : sizeOf c.1 < sizeOf cs := List.sizeOf_lt_of_mem c.2
  obtain ⟨t, l, b, c2, k, ch⟩ := n
  simp at h
  subst h
  simp
  omega

/-- `Node::max_depth`. -/
def Node.max_depth (n : Node) : Nat := _max_depth n 0

/-- The depth-cap resolution in `main`: a non-negative request is cast to
`usize` unchanged; a negative one becomes
`((root.max_depth() as isize) + d - 1) as usize`, a cast that wraps modulo
2^64 when the signed value is negative. -/
def resolveDepth (D : Nat) (d : Int) : Nat :=
  if 0 ≤ d then wrap64 d else wrap64 ((D : Int) + d - 1)

/-- The pipeline of `main` after parsing: build the root from the document
with inherited key length 0 and label "Root", resolve the depth cap, and
render with `total_size = root.size(unit)` and `threshold / 100`. -/
def mainRender (v : Value) (threshold : ℚ) (max_depth_arg : Option Int)
    (u : Unit) (c : Colorizer) (width : Nat) : List Line :=
  let root := Node.from_json v 0 "Root"
  let settings : DisplaySettings :=
    { counter := u
      colorizer := c
      depth := max_depth_arg.map (fun d => resolveDepth root.max_depth d)
      width := width }
  root.render (root.size u) 0 (threshold / 100) settings

/-- The conservation invariant the builder actually maintains on retained
children: `size_b` is the children's `size_b` sum and `size_c` is the number
of retained children plus their `size_c` sum, recursively. -/
inductive Good : Node → Prop where
  | mk : ∀ n : Node,
      (∀ cs, n.children = some cs → n.size_b = (cs.map (fun c => c.size_b)).sum) →
      (∀ cs, n.children = some cs →
        n.size_c = cs.length + (cs.map (fun c => c.size_c)).sum) →
      (∀ cs, n.children = some cs → ∀ c ∈ cs, Good c) →
      Good n

/-- Membership of a node in the subtree rooted at another node, through the
retained-children edges. -/
inductive Subnode : Node → Node → Prop where
  | refl (n : Node) : Subnode n n
  | step {p : Node} {cs : List Node} {c n : Node} :
      Subnode p n → p.children = some cs → c ∈ cs → Subnode c n

/-- Key bytes visible to the builder from a value reached through a key of
`ks` bytes: a leaf carries the inherited key length, an array the sum over its
elements (reached keyless), an object only the byte lengths of its own direct
keys. -/
def keyShallow : Value → Nat → Nat
  | .null, ks => ks
  | .bool _, ks => ks
  | .num _, ks => ks
  | .str _, ks => ks
  | .arr vs, _ => (vs.attach.map (fun e => keyShallow e.1 0)).sum
  | .obj es, _ => (es.map (fun kv => kv.1.utf8ByteSize)).sum
termination_by v => sizeOf v
decreasing_by
  have h1 := List.sizeOf_lt_of_mem e.2
  simp
  omega

/-- What the spec sentence describes: the sum of the character lengths of all
object keys in the entire subtree of a value. -/
def keyFootprintSpec : Value → Nat
  | .null => 0
  | .bool _ => 0
  | .num _ => 0
  | .str _ => 0
  | .arr vs => (vs.attach.map (fun e => keyFootprintSpec e.1)).sum
  | .obj es => (es.attach.map (fun kv => kv.1.1.length + keyFootprintSpec kv.1.2)).sum
termination_by v => sizeOf v
decreasing_by
  · have h1 := List.sizeOf_lt_of_mem e.2
    simp
    omega
  · have h1 := List.sizeOf_lt_of_mem kv.2
    have h2 : sizeOf kv.1.2 < sizeOf kv.1 := by
      obtain ⟨k, w⟩ := kv.1
      simp
    simp
    omega

@[simp] theorem from_json_null (ks : Nat) (tag : String) :
    Node.from_json .null ks tag = Node.leaf ks 0 tag := by
  rw [Node.from_json]

@[simp] theorem from_json_bool (b : Bool) (ks : Nat) (tag : String) :
    Node.from_json (.bool b) ks tag = Node.leaf ks 4 tag := by
  rw [Node.from_json]

@[simp] theorem from_json_num (x : String) (ks : Nat) (tag : String) :
    Node.from_json (.num x) ks tag = Node.leaf ks x.utf8ByteSize tag := by
  rw [Node.from_json]

@[simp] theorem from_json_str (s : String) (ks : Nat) (tag : String) :
    Node.from_json (.str s) ks tag = Node.leaf ks s.utf8ByteSize tag := by
  rw [Node.from_json]

@[simp] theorem from_json_arr (cs : List Value) (ks : Nat) (tag : String) :
    Node.from_json (.arr cs) ks tag =
      { tag := some tag
        len := (arrChildren cs).length
        size_b := ((arrChildren cs).map (fun c => c.size_b)).sum
        size_c := (arrChildren cs).length + ((arrChildren cs).map (fun c => c.size_c)).sum
        key_size := ((arrChildren cs).map (fun c => c.key_size)).sum
        children := none } := by
  rw [Node.from_json]
  simp [arrChildren, List.map_attach]

@[simp] theorem from_json_obj (es : List (String × Value)) (ks : Nat) (tag : String) :
    Node.from_json (.obj es) ks tag =
      { tag := some tag
        len := 0
        size_b := ((objChildren es).map (fun c => c.size_b)).sum
        size_c := (objChildren es).length + ((objChildren es).map (fun c => c.size_c)).sum
        key_size := (es.map (fun kv => kv.1.utf8ByteSize)).sum
        children := some (objChildren es) } := by
  rw [Node.from_json]
  simp [objChildren, List.map_attach]

/-- Structural induction over `Value`, with the member-wise hypotheses the
nested lists need. -/
theorem value_induction (motive : Value → Prop)
    (h0 : motive .null) (h1 : ∀ b, motive (.bool b)) (h2 : ∀ r, motive (.num r))
    (h3 : ∀ s, motive (.str s))
    (h4 : ∀ cs, (∀ c ∈ cs, motive c) → motive (.arr cs))
    (h5 : ∀ es, (∀ kv ∈ es, motive kv.2) → motive (.obj es)) :
    ∀ v, motive v := by
  have key : ∀ (fuel : Nat) (v : Value), sizeOf v ≤ fuel → motive v := by
    intro fuel
    induction fuel with
    | zero =>
      intro v hv
      cases v <;> simp at hv
    | succ fuel ih =>
      intro v hv
      match v with
      | .null => exact h0
      | .bool b => exact h1 b
      | .num r => exact h2 r
      | .str s => exact h3 s
      | .arr cs =>
        refine h4 cs (fun c hc => ih c ?_)
        have := List.sizeOf_lt_of_mem hc
        simp at hv
        omega
      | .obj es =>
        refine h5 es (fun kv hkv => ih kv.2 ?_)
        have h1 : sizeOf kv < sizeOf es := List.sizeOf_lt_of_mem hkv
        have h2 : sizeOf kv.2 < sizeOf kv := by
          obtain ⟨k, w⟩ := kv
          simp
        simp at hv
        omega
  exact fun v => key (sizeOf v) v (Nat.le_refl _)

/-- Structural induction over `Node`, with member-wise hypotheses for the
retained children. -/
theorem node_induction (motive : Node → Prop)
    (h : ∀ n : Node, (∀ cs, n.children = some cs → ∀ c ∈ cs, motive c) → motive n) :
    ∀ n, motive n := by
  have key : ∀ (fuel : Nat) (n : Node), sizeOf n ≤ fuel → motive n := by
    intro fuel
    induction fuel with
    | zero =>
      intro n hn
      obtain ⟨t, l, b, c, k, ch⟩ := n
      simp at hn
    | succ fuel ih =>
      intro n hn
      refine h n (fun cs hcs c hc => ih c ?_)
      have h1 : sizeOf c < sizeOf cs := List.sizeOf_lt_of_mem hc
      obtain ⟨t, l, b, c2, k, ch⟩ := n
      simp at hcs
      subst hcs
      simp at hn
      omega
  exact fun n => key (sizeOf n) n (Nat.le_refl _)

/-- A string never has more characters than UTF-8 bytes. -/
theorem length_le_utf8ByteSize (s : String) : s.length ≤ s.utf8ByteSize := by
  obtain ⟨data⟩ := s
  show data.length ≤ String.utf8ByteSize.go data
  induction data with
  | nil => simp [String.utf8ByteSize.go]
  | cons c cs ih =>
    simp [String.utf8ByteSize.go]
    have := c.utf8Size_pos
    simp [List.length] at ih ⊢
    omega

/-- Every tree the builder produces satisfies the conservation invariant. -/
theorem good_build (v : Value) : ∀ ks tag, Good (Node.from_json v ks tag) := by
  induction v using value_induction with
  | h0 =>
    intro ks tag
    refine Good.mk _ (fun cs hcs => ?_) (fun cs hcs => ?_) (fun cs hcs => ?_) <;>
      simp [Node.leaf] at hcs
  | h1 b =>
    intro ks tag
    refine Good.mk _ (fun cs hcs => ?_) (fun cs hcs => ?_) (fun cs hcs => ?_) <;>
      simp [Node.leaf] at hcs
  | h2 r =>
    intro ks tag
    refine Good.mk _ (fun cs hcs => ?_) (fun cs hcs => ?_) (fun cs hcs => ?_) <;>
      simp [Node.leaf] at hcs
  | h3 s =>
    intro ks tag
    refine Good.mk _ (fun cs hcs => ?_) (fun cs hcs => ?_) (fun cs hcs => ?_) <;>
      simp [Node.leaf] at hcs
  | h4 cs ih =>
    intro ks tag
    refine Good.mk _ (fun cs2 hcs => ?_) (fun cs2 hcs => ?_) (fun cs2 hcs => ?_) <;>
      simp at hcs
  | h5 es ih =>
    intro ks tag
    refine Good.mk _ (fun cs hcs => ?_) (fun cs hcs => ?_) (fun cs hcs => ?_)
    · simp at hcs
      subst hcs
      simp
    · simp at hcs
      subst hcs
      simp
    · simp at hcs
      subst hcs
      intro c hc
      simp only [objChildren] at hc
      obtain ⟨kv, hkv, rfl⟩ := List.mem_map.mp hc
      exact ih kv hkv _ _

/-- The conservation invariant descends to every subnode. -/
theorem good_of_subnode {n p : Node} (hg : Good n) (hs : Subnode p n) : Good p := by
  induction hs with
  | refl => exact hg
  | step hsub hcs hc ih =>
    cases ih hg with
    | mk _ hb hc2 hrec => exact hrec _ hcs _ hc

@[simp] theorem keyShallow_null (ks : Nat) : keyShallow .null ks = ks := by
  rw [keyShallow]

@[simp] theorem keyShallow_bool (b : Bool) (ks : Nat) : keyShallow (.bool b) ks = ks := by
  rw [keyShallow]

@[simp] theorem keyShallow_num (r : String) (ks : Nat) : keyShallow (.num r) ks = ks := by
  rw [keyShallow]

@[simp] theorem keyShallow_str (s : String) (ks : Nat) : keyShallow (.str s) ks = ks := by
  rw [keyShallow]

@[simp] theorem keyShallow_arr (es : List Value) (ks : Nat) :
    keyShallow (.arr es) ks = (es.map (fun e => keyShallow e 0)).sum := by
  rw [keyShallow]
  simp [List.map_attach]

@[simp] theorem keyShallow_obj (es : List (String × Value)) (ks : Nat) :
    keyShallow (.obj es) ks = (es.map (fun kv => kv.1.utf8ByteSize)).sum := by
  rw [keyShallow]

@[simp] theorem keyFootprintSpec_obj (es : List (String × Value)) :
    keyFootprintSpec (.obj es)
      = (es.map (fun kv => kv.1.length + keyFootprintSpec kv.2)).sum := by
  rw [keyFootprintSpec]
  simp [List.map_attach]

@[simp] theorem keyFootprintSpec_null : keyFootprintSpec .null = 0 := by
  rw [keyFootprintSpec]

/-- The builder's `key_size` coincides with `keyShallow`. -/
theorem key_size_eq (v : Value) : ∀ ks tag, (Node.from_json v ks tag).key_size = keyShallow v ks := by
  induction v using value_induction with
  | h0 => intro ks tag; simp [Node.leaf]
  | h1 b => intro ks tag; simp [Node.leaf]
  | h2 r => intro ks tag; simp [Node.leaf]
  | h3 s => intro ks tag; simp [Node.leaf]
  | h4 cs ih =>
    intro ks tag
    simp [arrChildren]
    refine congrArg List.sum (List.map_congr_left ?_)
    intro c hc
    simp only [Function.comp]
    exact ih c hc 0 ""
  | h5 es ih =>
    intro ks tag
    simp

/-- Unfolding equation of `Node.render` with the children list mapped over
directly. -/
theorem render_eq (n : Node) (total depth : Nat) (th : ℚ) (s : DisplaySettings) :
    n.render total depth th s =
      if depthCut s.depth depth then []
      else if relLtThreshold (n.size s.counter) total th then []
      else
        ⟨truncateId ((⟨List.replicate (2 * depth) ' '⟩ : String)
            ++ (if 0 < n.len then "[" ++ separate_with_commas n.len ++ "] " else "")
            ++ n.tag.getD "") (wrap64 ((usub s.width 19) * 2) / 3),
          n.size s.counter⟩ ::
        (match n.children with
          | some cs => (cs.map (fun c => Node.render c total (depth + 1) th s)).flatten
          | .none => []) := by
  rw [Node.render]
  cases hch : n.children with
  | none => simp [hch]
  | some cs => simp [hch, List.map_attach]

/-- Unfolding equation of `_max_depth` with the children list mapped over
directly. -/
theorem max_depth_eq (n : Node) (ax : Nat) :
    _max_depth n ax =
      match n.children with
      | some cs => 1 + ((cs.map (fun c => _max_depth c ax)).max?.getD 0)
      | .none => ax := by
  rw [_max_depth]
  cases hch : n.children with
  | none => simp [hch]
  | some cs => simp [hch, List.map_attach]

/-- A member of a list of naturals is at most the defaulted maximum. -/
theorem le_max?_getD {l : List Nat} {a : Nat} (h : a ∈ l) : a ≤ l.max?.getD 0 := by
  cases hm : l.max? with
  | none =>
    rw [List.max?_eq_none_iff] at hm
    subst hm
    cases h
  | some m =>
    have hx := (List.max?_le_iff (fun a b c => Nat.max_le) hm).mp (Nat.le_refl m) a h
    simpa using hx

/-- A retained child sits strictly below its parent in `max_depth`. -/
theorem child_max_depth_lt {n c : Node} {cs : List Node}
    (hcs : n.children = some cs) (hc : c ∈ cs) :
    c.max_depth + 1 ≤ n.max_depth := by
  have hn : n.max_depth = 1 + ((cs.map (fun c => _max_depth c 0)).max?.getD 0) := by
    show _max_depth n 0 = _
    rw [max_depth_eq n, hcs]
  have hmem : _max_depth c 0 ∈ cs.map (fun c => _max_depth c 0) :=
    List.mem_map_of_mem _ hc
  have h2 := le_max?_getD hmem
  show _max_depth c 0 + 1 ≤ n.max_depth
  omega

/-- When a configured depth cap is larger than the starting depth plus the
tree's own depth, rendering is the same as rendering without a cap. -/
theorem render_depth_irrelevant (n : Node) : ∀ (total depth : Nat) (th : ℚ)
    (u : Unit) (col : Colorizer) (width cap : Nat),
    depth + n.max_depth < cap →
    n.render total depth th ⟨u, col, some cap, width⟩
      = n.render total depth th ⟨u, col, .none, width⟩ := by
  induction n using node_induction with
  | h n ih =>
    intro total depth th u col width cap hlt
    have hmap : ∀ cs, n.children = some cs →
        cs.map (fun c => c.render total (depth + 1) th ⟨u, col, some cap, width⟩)
          = cs.map (fun c => c.render total (depth + 1) th ⟨u, col, .none, width⟩) := by
      intro cs hch
      refine List.map_congr_left ?_
      intro c hc
      refine ih cs hch c hc total (depth + 1) th u col width cap ?_
      have := child_max_depth_lt hch hc
      omega
    rw [render_eq, render_eq]
    have hcut : depthCut (some cap) depth = false := by
      simp [depthCut]
      omega
    dsimp only [depthCut] at hcut ⊢
    rw [hcut]
    cases hch : n.children with
    | none => rfl
    | some cs =>
      dsimp only []
      rw [hmap cs hch]

/-- With a zero threshold the pruning test never fires: for a positive total
the ratio is non-negative, and for a zero total the IEEE comparison is false
by definition. -/
theorem relLtThreshold_zero (a t : Nat) : relLtThreshold a t 0 = false := by
  unfold relLtThreshold
  split
  · rfl
  · simp only [decide_eq_false_iff_not, not_lt]
    positivity

/-- C1 (code_bug evidence): the claim says that a document whose root size
under the selected unit is zero renders no lines at all.  The code has no such
guard: on the empty-array document `[]` (total byte size 0) the threshold test
compares `0.0 / 0.0 = NaN` with the threshold, which is false, so the root
line is printed (with a NaN percentage).  The model evaluates `main`'s
pipeline at that failing input and shows exactly one line is printed. -/
theorem degenerate_total_prints_root :
    mainRender (.arr []) 0 .none .bytes .hellscape 100 = [⟨"Root", 0⟩] := by
  simp [mainRender, Node.size]
  rw [render_eq]
  simp [depthCut, relLtThreshold, Node.size, truncateId]
  decide

/-- C2 counterexample: for the object document with one entry `"a": null`
the root node has retained children, `element_count = 0` (objects store no
cardinality) but `child_size = 1`, so `child_size` is not `element_count`
plus the children's `child_size` sum. -/
theorem conservation_counterexample :
    (Node.from_json (.obj [("a", .null)]) 0 "Root").size_c
      ≠ (Node.from_json (.obj [("a", .null)]) 0 "Root").len
        + (((Node.from_json (.obj [("a", .null)]) 0 "Root").children.getD []).map
            (fun c => c.size_c)).sum := by
  simp [objChildren, Node.leaf]

/-- C2 amended: for every tree produced by the builder and every node of it
with retained children, `byte_size` equals the sum of the children's
`byte_size`, and `child_size` equals the NUMBER OF RETAINED CHILDREN plus the
sum of the children's `child_size` (for objects `element_count` stays 0 and
does not enter); for array nodes the claimed sums, including
`element_count` plus the sum, do hold over the elements computed and
discarded during construction. -/
theorem conservation_amended :
    (∀ (v : Value) (ks : Nat) (tag : String) (p : Node) (cs : List Node),
        Subnode p (Node.from_json v ks tag) → p.children = some cs →
        p.size_b = (cs.map (fun c => c.size_b)).sum ∧
        p.size_c = cs.length + (cs.map (fun c => c.size_c)).sum) ∧
    (∀ (es : List Value) (ks : Nat) (tag : String),
        (Node.from_json (.arr es) ks tag).size_b
          = ((arrChildren es).map (fun c => c.size_b)).sum ∧
        (Node.from_json (.arr es) ks tag).size_c
          = (Node.from_json (.arr es) ks tag).len
            + ((arrChildren es).map (fun c => c.size_c)).sum ∧
        (Node.from_json (.arr es) ks tag).len = es.length) := by
  constructor
  · intro v ks tag p cs hp hcs
    have hg := good_of_subnode (good_build v ks tag) hp
    cases hg with
    | mk _ hb hc2 _ => exact ⟨hb cs hcs, hc2 cs hcs⟩
  · intro es ks tag
    exact ⟨by simp, by simp, by simp [arrChildren]⟩

/-- C3 counterexample: on the document with an object nested inside an
object, the built root's `key_size` is 1 (the byte length of its direct key
"a" only) while the sum of the character lengths of all keys in the subtree
is 3 ("a" and "bb"). -/
theorem key_footprint_counterexample :
    (Node.from_json (.obj [("a", .obj [("bb", .null)])]) 0 "Root").key_size
      ≠ keyFootprintSpec (.obj [("a", .obj [("bb", .null)])]) := by
  simp [Node.leaf]
  decide

/-- C3 amended: `key_footprint` (`key_size`) equals `keyShallow`: a leaf
carries the byte length of the key it was reached through, an array sums its
elements' footprints, and an object sums the UTF-8 byte lengths of its own
direct keys only — keys of objects nested below another object are not
accumulated, and lengths are bytes, not characters. -/
theorem key_footprint_amended (v : Value) (ks : Nat) (tag : String) :
    (Node.from_json v ks tag).key_size = keyShallow v ks :=
  key_size_eq v ks tag

/-- C4 counterexample: with a configured depth cap of 0, rendering the
one-entry object document prints no line at all (the cutoff `depth >= cap`
already fires at the root, depth 0), so the output does not consist of
exactly the root line. -/
theorem depth_cap_zero_counterexample :
    (mainRender (.obj [("a", .num "1")]) 0 (some 0) .bytes .hellscape 100).length
      ≠ 1 := by
  simp [mainRender, resolveDepth, wrap64]
  rw [render_eq]
  simp [depthCut]

/-- C4 amended: a depth cap of 0 makes `render` return before printing
anything, for every node and settings; it is a cap of 1 that renders exactly
the root line (shown on a concrete document). -/
theorem depth_cap_amended :
    (∀ (n : Node) (total : Nat) (th : ℚ) (u : Unit) (col : Colorizer) (width : Nat),
        n.render total 0 th ⟨u, col, some 0, width⟩ = []) ∧
    mainRender (.obj [("a", .num "1")]) 0 (some 1) .bytes .hellscape 100
      = [⟨"Root", 1⟩] := by
  constructor
  · intro n total th u col width
    rw [render_eq]
    simp [depthCut]
  · have e1 : ("1" : String).utf8ByteSize = 1 := by decide
    have e2 : ("a" : String).utf8ByteSize = 1 := by decide
    simp [mainRender, Node.size, resolveDepth, wrap64, objChildren, Node.leaf, e1, e2]
    rw [render_eq]
    simp [depthCut, relLtThreshold_zero, Node.size, Node.leaf, e1]
    constructor
    · decide
    · rw [render_eq]
      simp [depthCut]

/-- C5: for a tree of true maximum depth `D`, a negative `max-depth` request
`-k` resolves to an effective cap of `D - k - 1`, and a non-negative request
`n` resolves to `n` unchanged.  The hypotheses keep the resolved cap an
actual depth (`1 ≤ k`, `k + 1 ≤ D`; the out-of-range case is C10's subject)
and the inputs inside the `isize`/`usize` ranges the program works in. -/
theorem depth_resolution (D k n : Nat) (hk : 1 ≤ k) (hkD : k + 1 ≤ D)
    (hD : D < 2 ^ 63) (hn : n < 2 ^ 63) :
    resolveDepth D (-(k : Int)) = D - k - 1 ∧ resolveDepth D (n : Int) = n := by
  constructor
  · have hneg : ¬ (0 ≤ -(k : Int)) := by omega
    simp [resolveDepth, hneg, wrap64]
    omega
  · simp [resolveDepth, wrap64]
    omega

/-- C5 witness: `max-depth = -1` on a tree of depth 3 resolves to 1, and a
request of 2 resolves to 2. -/
theorem depth_resolution_witness :
    resolveDepth 3 (-1) = 3 - 1 - 1 ∧ resolveDepth 3 (2 : Nat) = 2 :=
  depth_resolution 3 1 2 (by decide) (by decide) (by decide) (by decide)

/-- C6 counterexample: for the one-character string `"é"` the builder's
byte weight is 2, its UTF-8 byte length, not 1, its length in characters. -/
theorem string_weight_counterexample :
    (Node.from_json (.str "é") 0 "t").size_b ≠ ("é" : String).length := by
  simp [Node.leaf]
  decide

/-- C6 amended: building a leaf yields a childless node whose `byte_size`
is 0 for null, 4 for a boolean, the byte length of the number's canonical
decimal text (all ASCII, so also its character count), and the string's
length in UTF-8 BYTES (its character count only when ASCII); for containers,
`byte_size` is the sum of the children's `byte_size` (discarded children for
arrays, retained ones for objects). -/
theorem leaf_weights_amended :
    (∀ ks tag, (Node.from_json .null ks tag).size_b = 0
      ∧ (Node.from_json .null ks tag).children = Option.none) ∧
    (∀ (b : Bool) ks tag, (Node.from_json (.bool b) ks tag).size_b = 4
      ∧ (Node.from_json (.bool b) ks tag).children = Option.none) ∧
    (∀ (r : String) ks tag, (Node.from_json (.num r) ks tag).size_b = r.utf8ByteSize
      ∧ (Node.from_json (.num r) ks tag).children = Option.none) ∧
    (∀ (s : String) ks tag, (Node.from_json (.str s) ks tag).size_b = s.utf8ByteSize
      ∧ (Node.from_json (.str s) ks tag).children = Option.none) ∧
    (∀ (es : List Value) ks tag, (Node.from_json (.arr es) ks tag).size_b
      = ((arrChildren es).map (fun c => c.size_b)).sum) ∧
    (∀ (es : List (String × Value)) ks tag, (Node.from_json (.obj es) ks tag).size_b
      = ((objChildren es).map (fun c => c.size_b)).sum) := by
  refine ⟨?_, ?_, ?_, ?_, ?_, ?_⟩ <;> intros <;> simp [Node.leaf]

/-- C7: building from any array value yields a node with `children = none`,
`element_count` equal to the number of elements, and `byte_size`,
`child_size`, `key_footprint` summed over the mapped-then-discarded element
nodes, regardless of the elements' types or nesting depth. -/
theorem array_flattening (es : List Value) (ks : Nat) (tag : String) :
    (Node.from_json (.arr es) ks tag).children = Option.none ∧
    (Node.from_json (.arr es) ks tag).len = es.length ∧
    (Node.from_json (.arr es) ks tag).size_b
      = (es.map (fun e => (Node.from_json e 0 "").size_b)).sum ∧
    (Node.from_json (.arr es) ks tag).size_c
      = es.length + (es.map (fun e => (Node.from_json e 0 "").size_c)).sum ∧
    (Node.from_json (.arr es) ks tag).key_size
      = (es.map (fun e => (Node.from_json e 0 "").key_size)).sum := by
  refine ⟨by simp, by simp [arrChildren], ?_, ?_, ?_⟩ <;>
    simp [arrChildren, Function.comp_def]

/-- C8: in every tree produced by the builder, every node with retained
children, under either unit, has each child's size at most its own, so with
the fixed positive total a child's relative share never exceeds its
parent's. -/
theorem rel_size_monotone (v : Value) (ks : Nat) (tag : String) (u : Unit)
    (p c : Node) (cs : List Node)
    (hp : Subnode p (Node.from_json v ks tag))
    (hcs : p.children = some cs) (hc : c ∈ cs) :
    c.size u ≤ p.size u := by
  have hg := good_of_subnode (good_build v ks tag) hp
  cases hg with
  | mk _ hb hc2 _ =>
    cases u with
    | bytes =>
      show c.size_b ≤ p.size_b
      rw [hb cs hcs]
      exact List.single_le_sum (fun x _ => Nat.zero_le x) _
        (List.mem_map_of_mem (fun c => c.size_b) hc)
    | children =>
      show c.size_c ≤ p.size_c
      rw [hc2 cs hcs]
      have hs : c.size_c ≤ (cs.map (fun c => c.size_c)).sum :=
        List.single_le_sum (fun x _ => Nat.zero_le x) _
          (List.mem_map_of_mem (fun c => c.size_c) hc)
      omega

/-- C8 witness: in the tree built from the one-entry object document, the
retained child's byte size is at most the root's. -/
theorem rel_size_monotone_witness :
    (Node.from_json (.num "1") ("a" : String).utf8ByteSize "a").size .bytes
      ≤ (Node.from_json (.obj [("a", .num "1")]) 0 "Root").size .bytes :=
  rel_size_monotone (.obj [("a", .num "1")]) 0 "Root" .bytes _ _
    (objChildren [("a", .num "1")])
    (Subnode.refl _)
    (by simp)
    (by simp [objChildren])

/-- C9: when the composed label exceeds `label_width` characters (and the
width is at least 2 and within the `usize` range), the rendered label is
truncated to exactly `label_width - 2` characters followed by one ellipsis
character, hence never exceeds `label_width` characters total. -/
theorem label_truncation (id : String) (w : Nat) (h2 : 2 ≤ w) (hw : w < 2 ^ 64)
    (hlen : w < id.length) :
    truncateId id w = (⟨id.toList.take (w - 2)⟩ : String) ++ "…" ∧
    (truncateId id w).length = w - 2 + 1 ∧
    (truncateId id w).length ≤ w := by
  have hbyte : w < id.utf8ByteSize :=
    Nat.lt_of_lt_of_le hlen (length_le_utf8ByteSize id)
  have husub : usub w 2 = w - 2 := by
    simp [usub, wrap64]
    omega
  have h1 : truncateId id w = (⟨id.toList.take (w - 2)⟩ : String) ++ "…" := by
    simp [truncateId, hbyte, husub]
  have h2l : (truncateId id w).length = w - 2 + 1 := by
    rw [h1, String.length_append]
    have hlist : id.toList.length = id.length := by simp
    have ht : ((⟨id.toList.take (w - 2)⟩ : String)).length = w - 2 := by
      simp [List.length_take]
      omega
    have he : ("…" : String).length = 1 := by decide
    rw [ht, he]
  exact ⟨h1, h2l, by omega⟩

/-- C9 witness: truncating the 8-character label "abcdefgh" to width 4
keeps 2 characters plus the ellipsis, 3 characters in all. -/
theorem label_truncation_witness :
    truncateId "abcdefgh" 4 = (⟨("abcdefgh" : String).toList.take (4 - 2)⟩ : String) ++ "…" ∧
    (truncateId "abcdefgh" 4).length = 4 - 2 + 1 ∧
    (truncateId "abcdefgh" 4).length ≤ 4 :=
  label_truncation "abcdefgh" 4 (by decide) (by decide) (by decide)

/-- C10: when a negative `max-depth` request makes `max_depth + d - 1`
negative, the `as usize` cast wraps modulo 2^64, the effective cap is
enormous (at least `2^63 - 1`), and rendering with that cap is identical to
rendering with no cap at all for any tree of realistic depth — the entire
tree is rendered instead of nothing. -/
theorem negative_depth_wrap (D : Nat) (d : Int) (hD : D < 2 ^ 63)
    (hd : d < 0) (hlow : -(2 ^ 63) ≤ d) (hneg : (D : Int) + d - 1 < 0) :
    resolveDepth D d = ((D : Int) + d - 1 + 2 ^ 64).toNat ∧
    2 ^ 63 - 1 ≤ resolveDepth D d ∧
    ∀ (n : Node) (total : Nat) (th : ℚ) (u : Unit) (col : Colorizer) (width : Nat),
      n.max_depth < 2 ^ 63 - 1 →
      n.render total 0 th ⟨u, col, some (resolveDepth D d), width⟩
        = n.render total 0 th ⟨u, col, Option.none, width⟩ := by
  have hnn : ¬ (0 ≤ d) := by omega
  have h1 : resolveDepth D d = ((D : Int) + d - 1 + 2 ^ 64).toNat := by
    simp [resolveDepth, hnn, wrap64]
    omega
  have h2 : 2 ^ 63 - 1 ≤ resolveDepth D d := by
    rw [h1]
    omega
  refine ⟨h1, h2, ?_⟩
  intro n total th u col width hmax
  exact render_depth_irrelevant n total 0 th u col width _ (by omega)

/-- C10 witness: `max-depth = -1` on a tree of true maximum depth 0
resolves to a cap of at least `2^63 - 1`. -/
theorem negative_depth_wrap_witness :
    2 ^ 63 - 1 ≤ resolveDepth 0 (-1) :=
  (negative_depth_wrap 0 (-1) (by decide) (by decide) (by decide) (by decide)).2.1

end Toison
